import Mathlib

/-!
Verification of the monetary normalization engine of the family-budget
application (src/src/database.py and src/src/api.py).

Monetary amounts are modelled as rationals. The Python builtin round with
two digits is modelled as rounding half to even (banker's rounding) of the
scaled rational, which reproduces every concrete value the specification
asserts. Fallible code paths (the ZeroDivisionError reachable in
Expense.get_monthly_amounts) are modelled with Except.
-/

namespace Budget

/-- Round half to even of a rational, as an integer. -/
def roundHalfEven (q : ℚ) : ℤ :=
  if q - ⌊q⌋ < 1/2 then ⌊q⌋
  else if 1/2 < q - ⌊q⌋ then ⌊q⌋ + 1
  else if ⌊q⌋ % 2 = 0 then ⌊q⌋ else ⌊q⌋ + 1

/-- Python round(x, 2): scale by 100, round half to even, scale back. -/
def round2 (q : ℚ) : ℚ := (roundHalfEven (100 * q) : ℚ) / 100

/-- The frequency-to-divisor lookup divisors.get(frequency, 1) used by both
Income.monthly_amount and Expense.monthly_amount in database.py: monthly maps
to 1, quarterly to 3, semi-annual to 6, yearly to 12, anything else to the
default 1. -/
def divisorsGet (frequency : String) : ℚ :=
  if frequency = "monthly" then 1
  else if frequency = "quarterly" then 3
  else if frequency = "semi-annual" then 6
  else if frequency = "yearly" then 12
  else 1

/-- The four recognized frequency literals. -/
def frequencyEnum : List String := ["monthly", "quarterly", "semi-annual", "yearly"]

/-- The Income dataclass of database.py. -/
structure Income where
  id : ℤ
  user_id : ℤ
  person : String
  amount : ℚ
  frequency : String := "monthly"

/-- Income.monthly_amount: amount divided by the frequency divisor, rounded
to 2 decimals. -/
def Income.monthly_amount (i : Income) : ℚ :=
  round2 (i.amount / divisorsGet i.frequency)

/-- The Expense dataclass of database.py. The months field is None or a
list of month numbers, as in the Python source. -/
structure Expense where
  id : ℤ
  user_id : ℤ
  name : String
  category : String
  amount : ℚ
  frequency : String
  account : Option String := none
  months : Option (List ℕ) := none

/-- Expense.monthly_amount: amount divided by the frequency divisor, rounded
to 2 decimals (the same formula as Income.monthly_amount). -/
def Expense.monthly_amount (e : Expense) : ℚ :=
  round2 (e.amount / divisorsGet e.frequency)

/-- The even-spread result dict of Expense.get_monthly_amounts: months 1..12
map to monthly_amount, every other key reads as the dict default 0. -/
def evenSpread (e : Expense) : ℕ → ℚ :=
  fun m => if 1 ≤ m ∧ m ≤ 12 then e.monthly_amount else 0

/-- Expense.get_monthly_amounts of database.py, with the result dict read as
a total function (missing keys read as 0). The Python branch condition is
frequency == monthly or months is None; otherwise the total amount is split
as round(amount / len(months), 2) over the listed months. When months is an
empty list and the frequency is not monthly, the division by len(months)
raises ZeroDivisionError, modelled by Except.error. -/
def Expense.get_monthly_amounts (e : Expense) : Except Unit (ℕ → ℚ) :=
  match e.months with
  | none => Except.ok (evenSpread e)
  | some ms =>
    if e.frequency = "monthly" then Except.ok (evenSpread e)
    else if ms.length = 0 then Except.error ()
    else
      Except.ok (fun m =>
        if m ∈ ms then round2 (e.amount / (ms.length : ℚ))
        else if 1 ≤ m ∧ m ≤ 12 then 0 else 0)

/-- The per-row CASE expression of the SQL totals in get_total_income and
get_total_monthly_expenses: the amount divided by the frequency divisor with
no rounding, and the raw amount in the ELSE branch. -/
def sqlRowMonthly (frequency : String) (amount : ℚ) : ℚ :=
  if frequency = "monthly" then amount
  else if frequency = "quarterly" then amount / 3
  else if frequency = "semi-annual" then amount / 6
  else if frequency = "yearly" then amount / 12
  else amount

/-- get_total_monthly_expenses of database.py: the SQL SUM over the user's
expense rows of the unrounded per-row CASE expression (COALESCE to 0 on the
empty table is the empty-list sum). -/
def get_total_monthly_expenses (rows : List Expense) : ℚ :=
  (rows.map (fun e => sqlRowMonthly e.frequency e.amount)).sum

/-- get_total_income of database.py: the same unrounded SQL SUM over the
user's income rows. -/
def get_total_income (rows : List Income) : ℚ :=
  (rows.map (fun i => sqlRowMonthly i.frequency i.amount)).sum

/-- get_category_totals of database.py, with the totals dict read as a total
function (missing categories read as 0): each expense adds its rounded
monthly_amount to its category's entry. -/
def get_category_totals (l : List Expense) : String → ℚ :=
  l.foldl
    (fun totals e c =>
      if c = e.category then totals c + e.monthly_amount else totals c)
    (fun _ => 0)

/-- Stable insertion into a list sorted descending by key: the new element x
goes in front of the first element whose key is at most key x, so an element
inserted from further left in the original list precedes every element of
equal key. -/
def insertDesc (key : α → ℚ) (x : α) : List α → List α
  | [] => [x]
  | y :: ys => if key y ≤ key x then x :: y :: ys else y :: insertDesc key x ys

/-- Stable descending sort by key, the behaviour of Python's
sorted(..., key=..., reverse=True): equal-key elements keep input order. -/
def sortDesc (key : α → ℚ) : List α → List α
  | [] => []
  | x :: xs => insertDesc key x (sortDesc key xs)

/-- One entry of the top_expenses list built in chart_data of api.py. -/
structure TopEntry where
  name : String
  amount : ℚ
  category : String
deriving DecidableEq

/-- The fields chart_data exposes for one expense. -/
def mkTopEntry (e : Expense) : TopEntry :=
  { name := e.name, amount := e.monthly_amount, category := e.category }

/-- The top-expenses computation of chart_data in api.py, generalized over
the truncation length: sort descending by monthly_amount (Python's sorted
with reverse=True, a stable sort) and keep the first n entries. -/
def topExpensesN (expenses : List Expense) (n : ℕ) : List TopEntry :=
  ((sortDesc Expense.monthly_amount expenses).take n).map mkTopEntry

/-- The top-expenses list of chart_data, which truncates at 5. -/
def topExpenses (expenses : List Expense) : List TopEntry :=
  topExpensesN expenses 5

/-- The label of the synthetic grouped category in chart_data. -/
def otherLabel : String := "Andet (samlet)"

/-- Python dict assignment d at key k set to v, on the insertion-ordered
items list of d: an existing key keeps its position and receives the new
value, a new key is appended at the end. -/
def dictAssign (l : List (String × ℚ)) (k : String) (v : ℚ) :
    List (String × ℚ) :=
  if k ∈ l.map Prod.fst then
    l.map (fun p => if p.1 = k then (p.1, v) else p)
  else l ++ [(k, v)]

/-- The category-grouping step of chart_data in api.py, on the dict items
list: when more than 6 categories exist, keep the 6 with the highest totals
(stable descending sort, first 6) and, when the sum of the rest is strictly
positive, assign it to the key Andet (samlet) in the kept dict, which
appends a new entry or overwrites a kept category of that exact name;
otherwise return the input unchanged. -/
def groupSmallCategories (totals : List (String × ℚ)) : List (String × ℚ) :=
  if totals.length > 6 then
    let sortedCats := sortDesc Prod.snd totals
    let topCats := sortedCats.take 6
    let otherTotal := ((sortedCats.drop 6).map Prod.snd).sum
    if otherTotal > 0 then dictAssign topCats otherLabel otherTotal
    else topCats
  else totals

/-- The months column value written by add_expense and update_expense:
json.dumps(months) if months else None stores NULL for None and for the
empty list, and the JSON text of the list otherwise. The JSON round-trip on
integer lists is the identity, so the cell is modelled as the list itself. -/
def monthsToDb (months : Option (List ℕ)) : Option (List ℕ) :=
  match months with
  | some (m :: ms) => some (m :: ms)
  | _ => none

/-- The months decoding of get_all_expenses and get_expense_by_id:
json.loads(cell) if cell else None maps NULL (and the never-written empty
string) to None and parses any stored JSON text back to its list. -/
def monthsFromDb (cell : Option (List ℕ)) : Option (List ℕ) :=
  match cell with
  | none => none
  | some l => some l

/-- The occurrences-per-year count of the validity rule in the spec for a
non-monthly frequency with an explicit months list: quarterly has 4, a
semi-annual frequency has 2, yearly has 1. Used only to state the months
validity precondition; monthly and unknown frequencies fall to the unused
default. -/
def occurrencesPerYear (frequency : String) : ℕ :=
  if frequency = "quarterly" then 4
  else if frequency = "semi-annual" then 2
  else if frequency = "yearly" then 1
  else 12

/-- A sample income row used for concrete instances. -/
def mkIncome (amount : ℚ) (frequency : String) : Income :=
  ⟨0, 0, "p", amount, frequency⟩

/-- A sample expense row used for concrete instances. -/
def mkExpense (amount : ℚ) (frequency : String)
    (months : Option (List ℕ)) : Expense :=
  ⟨0, 0, "x", "c", amount, frequency, none, months⟩

/-! ## Helper lemmas -/

theorem round2_int_div_100 (k : ℤ) : round2 ((k : ℚ) / 100) = (k : ℚ) / 100 := by
  have h100 : (100 : ℚ) * ((k : ℚ) / 100) = (k : ℚ) := by ring_nf
  have hfl : ⌊(k : ℚ)⌋ = k := Int.floor_intCast k
  unfold round2 roundHalfEven
  rw [h100, hfl]
  have : (k : ℚ) - (k : ℤ) = 0 := by ring
  rw [this]
  norm_num

theorem round2_intCast (k : ℤ) : round2 (k : ℚ) = (k : ℚ) := by
  have h : ((100 * k : ℤ) : ℚ) / 100 = (k : ℚ) := by push_cast; ring
  have := round2_int_div_100 (100 * k)
  rw [h] at this
  exact this

theorem round2_natCast (n : ℕ) : round2 (n : ℚ) = (n : ℚ) := by
  have := round2_intCast (n : ℤ)
  push_cast at this
  exact this

theorem round2_nat_div_100 (n : ℕ) : round2 ((n : ℚ) / 100) = (n : ℚ) / 100 := by
  have := round2_int_div_100 (n : ℤ)
  rwa [Int.cast_natCast] at this

theorem divisorsGet_monthly : divisorsGet "monthly" = 1 := by simp [divisorsGet]

theorem divisorsGet_quarterly : divisorsGet "quarterly" = 3 := by simp [divisorsGet]

theorem divisorsGet_semiannual : divisorsGet "semi-annual" = 6 := by simp [divisorsGet]

theorem divisorsGet_yearly : divisorsGet "yearly" = 12 := by simp [divisorsGet]

theorem divisorsGet_default (freq : String) (h : freq ∉ frequencyEnum) :
    divisorsGet freq = 1 := by
  simp only [frequencyEnum, List.mem_cons, List.mem_singleton, not_or] at h
  obtain ⟨h1, h2, h3, h4⟩ := h
  simp [divisorsGet, h1, h2, h3, h4]

/-! ## C1: the monthly-equivalent divisor formula and its concrete values -/

/-- C1: for every amount at least 0 and every recognized frequency, the
monthly amount of an Income or Expense equals round2 of amount divided by 1,
3, 6 or 12 for monthly, quarterly, semi-annual, yearly respectively, and the
rounding reproduces the concrete values 1200.50 yearly to 100.04, 100.00
quarterly to 33.33, 6000.60 semi-annual to 1000.10 and 9000 quarterly
to 3000. -/
theorem monthly_amount_divisor_formula (amount : ℚ) (freq : String)
    (_h0 : 0 ≤ amount) (hf : freq ∈ frequencyEnum) :
    ((freq = "monthly" →
        (mkIncome amount freq).monthly_amount = round2 (amount / 1) ∧
        (mkExpense amount freq none).monthly_amount = round2 (amount / 1)) ∧
      (freq = "quarterly" →
        (mkIncome amount freq).monthly_amount = round2 (amount / 3) ∧
        (mkExpense amount freq none).monthly_amount = round2 (amount / 3)) ∧
      (freq = "semi-annual" →
        (mkIncome amount freq).monthly_amount = round2 (amount / 6) ∧
        (mkExpense amount freq none).monthly_amount = round2 (amount / 6)) ∧
      (freq = "yearly" →
        (mkIncome amount freq).monthly_amount = round2 (amount / 12) ∧
        (mkExpense amount freq none).monthly_amount = round2 (amount / 12))) ∧
    (mkExpense (1200.50 : ℚ) "yearly" none).monthly_amount = 100.04 ∧
    (mkExpense 100 "quarterly" none).monthly_amount = 33.33 ∧
    (mkExpense (6000.60 : ℚ) "semi-annual" none).monthly_amount = 1000.10 ∧
    (mkExpense 9000 "quarterly" none).monthly_amount = 3000 := by
  refine ⟨⟨?_, ?_, ?_, ?_⟩, ?_, ?_, ?_, ?_⟩
  · intro h; subst h
    simp [Income.monthly_amount, Expense.monthly_amount, mkIncome, mkExpense,
      divisorsGet_monthly]
  · intro h; subst h
    simp [Income.monthly_amount, Expense.monthly_amount, mkIncome, mkExpense,
      divisorsGet_quarterly]
  · intro h; subst h
    simp [Income.monthly_amount, Expense.monthly_amount, mkIncome, mkExpense,
      divisorsGet_semiannual]
  · intro h; subst h
    simp [Income.monthly_amount, Expense.monthly_amount, mkIncome, mkExpense,
      divisorsGet_yearly]
  · show round2 ((1200.50 : ℚ) / divisorsGet "yearly") = 100.04
    rw [divisorsGet_yearly]
    norm_num [round2, roundHalfEven]
  · show round2 ((100 : ℚ) / divisorsGet "quarterly") = 33.33
    rw [divisorsGet_quarterly]
    norm_num [round2, roundHalfEven]
  · show round2 ((6000.60 : ℚ) / divisorsGet "semi-annual") = 1000.10
    rw [divisorsGet_semiannual]
    norm_num [round2, roundHalfEven]
  · show round2 ((9000 : ℚ) / divisorsGet "quarterly") = 3000
    rw [divisorsGet_quarterly]
    norm_num [round2, roundHalfEven]

/-- Witness for C1 at amount 3 and frequency quarterly. -/
theorem monthly_amount_divisor_formula_witness :
    (mkIncome 3 "quarterly").monthly_amount = round2 ((3 : ℚ) / 3) ∧
    (mkExpense 3 "quarterly" none).monthly_amount = round2 ((3 : ℚ) / 3) :=
  (monthly_amount_divisor_formula 3 "quarterly" zero_le_three
    (by decide)).1.2.1 rfl

/-! ## C2, C3, C4: the monthly distribution -/

theorem evenSpread_at (e : Expense) (m : ℕ) (h1 : 1 ≤ m) (h2 : m ≤ 12) :
    evenSpread e m = e.monthly_amount := if_pos ⟨h1, h2⟩

theorem evenSpread_sum (e : Expense) :
    ((List.range' 1 12).map (evenSpread e)).sum = 12 * e.monthly_amount := by
  simp [List.range', evenSpread]
  ring

/-- C2: get_monthly_amounts maps every month 1..12 to monthly_amount when
the frequency is monthly or months is not set (so the 12 values sum to 12
times monthly_amount and, as the concrete quarterly-100 instance shows, not
to the amount); otherwise, under the validity precondition on the months
list (length equal to the frequency's occurrences per year, entries in
1..12, no duplicates), each listed month maps to round2 of amount divided by
the list length and every unlisted month in 1..12 maps to 0. -/
theorem get_monthly_amounts_spec (e : Expense) :
    ((e.frequency = "monthly" ∨ e.months = none) →
      ∃ f, e.get_monthly_amounts = Except.ok f ∧
        (∀ m, 1 ≤ m → m ≤ 12 → f m = e.monthly_amount) ∧
        ((List.range' 1 12).map f).sum = 12 * e.monthly_amount) ∧
    (∀ ms, e.months = some ms → e.frequency ≠ "monthly" →
      e.frequency ∈ ["quarterly", "semi-annual", "yearly"] →
      ms.length = occurrencesPerYear e.frequency →
      (∀ m ∈ ms, 1 ≤ m ∧ m ≤ 12) → ms.Nodup →
      ∃ f, e.get_monthly_amounts = Except.ok f ∧
        (∀ m ∈ ms, f m = round2 (e.amount / (ms.length : ℚ))) ∧
        (∀ m, 1 ≤ m → m ≤ 12 → m ∉ ms → f m = 0)) ∧
    12 * (mkExpense 100 "quarterly" none).monthly_amount ≠ 100 := by
  refine ⟨?_, ?_, ?_⟩
  · intro h
    rcases hm : e.months with _ | ms
    · refine ⟨evenSpread e, ?_, fun m h1 h2 => evenSpread_at e m h1 h2,
        evenSpread_sum e⟩
      simp [Expense.get_monthly_amounts, hm]
    · have hf : e.frequency = "monthly" := by
        rcases h with h | h
        · exact h
        · rw [hm] at h; cases h
      refine ⟨evenSpread e, ?_, fun m h1 h2 => evenSpread_at e m h1 h2,
        evenSpread_sum e⟩
      simp [Expense.get_monthly_amounts, hm, hf]
  · intro ms hm hf hfe hlen _hbounds _hnodup
    have hne : ms.length ≠ 0 := by
      rw [hlen]
      simp only [List.mem_cons, List.not_mem_nil, or_false] at hfe
      rcases hfe with h | h | h <;> simp [occurrencesPerYear, h]
    refine ⟨fun m => if m ∈ ms then round2 (e.amount / (ms.length : ℚ))
      else if 1 ≤ m ∧ m ≤ 12 then 0 else 0, ?_, ?_, ?_⟩
    · simp only [Expense.get_monthly_amounts, hm]
      rw [if_neg hf, if_neg hne]
    · intro m hmem
      simp [hmem]
    · intro m h1 h2 hnotmem
      simp [hnotmem]
  · show 12 * round2 ((100 : ℚ) / divisorsGet "quarterly") ≠ 100
    rw [divisorsGet_quarterly]
    norm_num [round2, roundHalfEven]

/-- Witness for C2: a quarterly expense of 100 over months 1, 4, 7, 10. -/
theorem get_monthly_amounts_spec_witness :
    ∃ f, (mkExpense 100 "quarterly" (some [1, 4, 7, 10])).get_monthly_amounts
          = Except.ok f ∧
      (∀ m ∈ [1, 4, 7, 10],
        f m = round2 ((mkExpense 100 "quarterly" (some [1, 4, 7, 10])).amount
          / (([1, 4, 7, 10] : List ℕ).length : ℚ))) ∧
      (∀ m, 1 ≤ m → m ≤ 12 → m ∉ [1, 4, 7, 10] → f m = 0) :=
  (get_monthly_amounts_spec (mkExpense 100 "quarterly" (some [1, 4, 7, 10]))).2.1
    [1, 4, 7, 10] rfl (by decide) (by decide) (by decide) (by decide) (by decide)

/-- C3 counterexample: a quarterly expense whose months field is the empty
list reaches the division by len(months) and raises ZeroDivisionError
(modelled as Except.error), instead of returning the even spread. -/
theorem empty_months_raises :
    (mkExpense 100 "quarterly" (some [])).get_monthly_amounts
      = Except.error () := by
  simp [Expense.get_monthly_amounts, mkExpense]

/-- C3 amended: with months equal to the empty list (rather than None), the
even spread is returned only when the frequency is monthly; for every other
frequency the code divides by len(months) = 0 and raises ZeroDivisionError.
Only months = None selects the even spread for non-monthly frequencies. -/
theorem empty_months_behaviour (amount : ℚ) (freq : String) :
    (freq = "monthly" →
      (mkExpense amount freq (some [])).get_monthly_amounts
        = Except.ok (evenSpread (mkExpense amount freq (some [])))) ∧
    (freq ≠ "monthly" →
      (mkExpense amount freq (some [])).get_monthly_amounts
        = Except.error ()) := by
  constructor
  · intro h
    simp [Expense.get_monthly_amounts, mkExpense, h]
  · intro h
    simp [Expense.get_monthly_amounts, mkExpense, h]

/-- Witness for the amended C3 at frequency quarterly. -/
theorem empty_months_behaviour_witness :
    (mkExpense 3 "quarterly" (some [])).get_monthly_amounts
      = Except.error () :=
  (empty_months_behaviour 3 "quarterly").2 (by decide)

/-- C4: an unrecognized frequency string falls back to divisor 1 and never
raises: monthly_amount of an Income or Expense is round2 of amount divided
by 1, the SQL CASE expression yields the raw amount through its ELSE branch,
and get_monthly_amounts succeeds for months absent and for any non-empty
months list. -/
theorem unknown_frequency_defaults (amount : ℚ) (freq : String)
    (h : freq ∉ frequencyEnum) :
    (mkExpense amount freq none).monthly_amount = round2 (amount / 1) ∧
    (mkIncome amount freq).monthly_amount = round2 (amount / 1) ∧
    sqlRowMonthly freq amount = amount ∧
    (mkExpense amount freq none).get_monthly_amounts
      = Except.ok (evenSpread (mkExpense amount freq none)) ∧
    (∀ ms : List ℕ, ms ≠ [] →
      ∃ f, (mkExpense amount freq (some ms)).get_monthly_amounts
        = Except.ok f) := by
  have hd := divisorsGet_default freq h
  simp only [frequencyEnum, List.mem_cons, List.mem_singleton, not_or] at h
  obtain ⟨h1, h2, h3, h4⟩ := h
  refine ⟨?_, ?_, ?_, ?_, ?_⟩
  · show round2 (amount / divisorsGet freq) = round2 (amount / 1)
    rw [hd]
  · show round2 (amount / divisorsGet freq) = round2 (amount / 1)
    rw [hd]
  · simp [sqlRowMonthly, h1, h2, h3, h4]
  · rfl
  · intro ms hms
    rcases ms with _ | ⟨m, ms⟩
    · exact absurd rfl hms
    · refine ⟨fun mo =>
        if mo ∈ m :: ms then round2 (amount / ((m :: ms).length : ℚ))
        else if 1 ≤ mo ∧ mo ≤ 12 then 0 else 0, ?_⟩
      show (if freq = "monthly" then Except.ok (evenSpread (mkExpense amount freq (some (m :: ms))))
        else if (m :: ms).length = 0 then Except.error ()
        else Except.ok fun mo =>
          if mo ∈ m :: ms then round2 (amount / ((m :: ms).length : ℚ))
          else if 1 ≤ mo ∧ mo ≤ 12 then 0 else 0) = _
      rw [if_neg h1, if_neg (by simp : ¬(m :: ms).length = 0)]

/-- Witness for C4 at the unrecognized frequency weekly. -/
theorem unknown_frequency_defaults_witness :
    (mkExpense 3 "weekly" none).monthly_amount = round2 ((3 : ℚ) / 1) ∧
    (mkIncome 3 "weekly").monthly_amount = round2 ((3 : ℚ) / 1) ∧
    sqlRowMonthly "weekly" 3 = 3 ∧
    (mkExpense 3 "weekly" none).get_monthly_amounts
      = Except.ok (evenSpread (mkExpense 3 "weekly" none)) ∧
    (∀ ms : List ℕ, ms ≠ [] →
      ∃ f, (mkExpense 3 "weekly" (some ms)).get_monthly_amounts
        = Except.ok f) :=
  unknown_frequency_defaults 3 "weekly" (by decide)

/-! ## C6: category aggregation is permutation invariant -/

theorem get_category_totals_foldl (l : List Expense) (acc : String → ℚ)
    (c : String) :
    (l.foldl
      (fun totals e d =>
        if d = e.category then totals d + e.monthly_amount else totals d)
      acc) c
      = acc c + ((l.filter (fun e => e.category = c)).map
          Expense.monthly_amount).sum := by
  induction l generalizing acc with
  | nil => simp
  | cons e l ih =>
    rw [List.foldl_cons, ih]
    by_cases h : e.category = c
    · rw [List.filter_cons_of_pos (by simp [h])]
      simp only [List.map_cons, List.sum_cons]
      rw [if_pos h.symm]
      ring
    · rw [List.filter_cons_of_neg (by simp [h])]
      rw [if_neg (fun hc => h hc.symm)]

theorem get_category_totals_eq (l : List Expense) (c : String) :
    get_category_totals l c
      = ((l.filter (fun e => e.category = c)).map Expense.monthly_amount).sum := by
  rw [get_category_totals, get_category_totals_foldl]
  simp

/-- C6: summing each expense's monthly_amount into its category, as
get_category_totals does, yields the same totals map for any permutation of
the expense list. -/
theorem category_totals_perm_invariant (l l' : List Expense)
    (h : l.Perm l') : get_category_totals l = get_category_totals l' := by
  funext c
  rw [get_category_totals_eq, get_category_totals_eq]
  exact ((h.filter _).map _).sum_eq

/-- Witness for C6 on a two-element swap. -/
theorem category_totals_perm_invariant_witness :
    get_category_totals
        [mkExpense 100 "monthly" none, mkExpense 50 "quarterly" none]
      = get_category_totals
        [mkExpense 50 "quarterly" none, mkExpense 100 "monthly" none] :=
  category_totals_perm_invariant _ _
    (List.Perm.swap (mkExpense 50 "quarterly" none)
      (mkExpense 100 "monthly" none) [])

/-! ## Sorting lemmas for the chart operations -/

theorem insertDesc_perm (key : α → ℚ) (x : α) (l : List α) :
    (insertDesc key x l).Perm (x :: l) := by
  induction l with
  | nil => exact List.Perm.refl _
  | cons y ys ih =>
    by_cases h : key y ≤ key x
    · rw [insertDesc, if_pos h]
    · rw [insertDesc, if_neg h]
      exact (ih.cons y).trans (List.Perm.swap x y ys)

theorem sortDesc_perm (key : α → ℚ) (l : List α) :
    (sortDesc key l).Perm l := by
  induction l with
  | nil => exact List.Perm.refl _
  | cons x xs ih =>
    exact (insertDesc_perm key x (sortDesc key xs)).trans (ih.cons x)

theorem mem_insertDesc (key : α → ℚ) (x : α) (l : List α) (z : α) :
    z ∈ insertDesc key x l ↔ z = x ∨ z ∈ l := by
  rw [(insertDesc_perm key x l).mem_iff]
  simp

theorem insertDesc_pairwise (key : α → ℚ) (x : α) (l : List α)
    (h : l.Pairwise (fun a b => key b ≤ key a)) :
    (insertDesc key x l).Pairwise (fun a b => key b ≤ key a) := by
  induction l with
  | nil => simp [insertDesc]
  | cons y ys ih =>
    rcases List.pairwise_cons.mp h with ⟨hy, hys⟩
    by_cases hle : key y ≤ key x
    · rw [insertDesc, if_pos hle]
      refine List.Pairwise.cons ?_ h
      intro z hz
      rcases List.mem_cons.mp hz with rfl | hz
      · exact hle
      · exact le_trans (hy z hz) hle
    · rw [insertDesc, if_neg hle]
      refine List.Pairwise.cons ?_ (ih hys)
      intro z hz
      rcases (mem_insertDesc key x ys z).mp hz with rfl | hz
      · exact le_of_lt (not_le.mp hle)
      · exact hy z hz

theorem sortDesc_pairwise (key : α → ℚ) (l : List α) :
    (sortDesc key l).Pairwise (fun a b => key b ≤ key a) := by
  induction l with
  | nil => simp [sortDesc]
  | cons x xs ih => exact insertDesc_pairwise key x (sortDesc key xs) ih

theorem pairwise_take_drop {R : α → α → Prop} {l : List α} (n : ℕ)
    (h : l.Pairwise R) :
    ∀ a ∈ l.take n, ∀ b ∈ l.drop n, R a b := by
  rw [← List.take_append_drop n l] at h
  exact (List.pairwise_append.mp h).2.2

/-! ## C7: grouping of small categories -/

/-- The 8-category boundary example from the spec. -/
def exampleTotals : List (String × ℚ) :=
  [("a", 8000), ("b", 7000), ("c", 6000), ("d", 5000),
   ("e", 4000), ("f", 3000), ("g", 2000), ("h", 1000)]

theorem dictAssign_of_not_mem (l : List (String × ℚ)) (k : String) (v : ℚ)
    (h : k ∉ l.map Prod.fst) : dictAssign l k v = l ++ [(k, v)] := if_neg h

/-- A 7-category totals list in which one of the 6 highest categories is
itself named Andet (samlet). -/
def collisionTotals : List (String × ℚ) :=
  [(otherLabel, 8000), ("b", 7000), ("c", 6000), ("d", 5000),
   ("e", 4000), ("f", 3000), ("g", 1000)]

/-- C7 counterexample: on a 7-category input whose highest-total category is
itself named Andet (samlet), the dict assignment overwrites that kept
category's total with the excluded sum instead of keeping it unchanged and
adding a synthetic entry: the entry (Andet (samlet), 8000), one of the 6
highest, is absent from the output, and the output has 6 entries, not 7. -/
theorem group_small_categories_overwrite :
    groupSmallCategories collisionTotals
      = [(otherLabel, 1000), ("b", 7000), ("c", 6000), ("d", 5000),
          ("e", 4000), ("f", 3000)] ∧
    (otherLabel, (8000 : ℚ)) ∉ groupSmallCategories collisionTotals ∧
    (groupSmallCategories collisionTotals).length = 6 := by
  have h : groupSmallCategories collisionTotals
      = [(otherLabel, 1000), ("b", 7000), ("c", 6000), ("d", 5000),
          ("e", 4000), ("f", 3000)] := by
    norm_num [groupSmallCategories, collisionTotals, dictAssign, sortDesc,
      insertDesc, otherLabel]
    decide
  refine ⟨h, ?_, ?_⟩
  · rw [h]
    norm_num [otherLabel]
  · rw [h]
    rfl

/-- C7 amended: provided no input category is itself named Andet (samlet),
with 6 or fewer categories the totals are returned unchanged; with more
than 6, the 6 highest-total entries are kept unchanged (they are input
entries, 6 of them, each at least as large as every excluded entry) and a
single synthetic entry labelled Andet (samlet) holding the sum of the
excluded totals is appended exactly when that sum is strictly positive, so
the output has at most 7 entries; the spec's 8-category example evaluates
accordingly. Without that proviso the dict assignment can overwrite a kept
category of that name. -/
theorem group_small_categories_spec (totals : List (String × ℚ))
    (hno : otherLabel ∉ totals.map Prod.fst) :
    (totals.length ≤ 6 → groupSmallCategories totals = totals) ∧
    (6 < totals.length →
      (sortDesc Prod.snd totals).Perm totals ∧
      ((sortDesc Prod.snd totals).take 6).length = 6 ∧
      (∀ p ∈ (sortDesc Prod.snd totals).take 6, p ∈ totals) ∧
      (∀ p ∈ (sortDesc Prod.snd totals).take 6,
        ∀ q ∈ (sortDesc Prod.snd totals).drop 6, q.2 ≤ p.2) ∧
      groupSmallCategories totals =
        (sortDesc Prod.snd totals).take 6 ++
          (if 0 < (((sortDesc Prod.snd totals).drop 6).map Prod.snd).sum
            then [(otherLabel, (((sortDesc Prod.snd totals).drop 6).map Prod.snd).sum)]
            else []) ∧
      (groupSmallCategories totals).length ≤ 7) ∧
    groupSmallCategories exampleTotals =
      [("a", 8000), ("b", 7000), ("c", 6000), ("d", 5000),
       ("e", 4000), ("f", 3000), (otherLabel, 3000)] := by
  refine ⟨?_, ?_, ?_⟩
  · intro h
    rw [groupSmallCategories, if_neg (by omega)]
  · intro h
    have hperm := sortDesc_perm (Prod.snd : String × ℚ → ℚ) totals
    have hlen : (sortDesc Prod.snd totals).length = totals.length :=
      hperm.length_eq
    have htake : ((sortDesc Prod.snd totals).take 6).length = 6 := by
      rw [List.length_take, hlen]
      omega
    have hkeys : otherLabel ∉ ((sortDesc Prod.snd totals).take 6).map Prod.fst := by
      intro hmem
      rcases List.mem_map.mp hmem with ⟨p, hp, hpk⟩
      exact hno (List.mem_map.mpr
        ⟨p, hperm.mem_iff.mp (List.take_subset 6 _ hp), hpk⟩)
    have heq : groupSmallCategories totals =
        (sortDesc Prod.snd totals).take 6 ++
          (if 0 < (((sortDesc Prod.snd totals).drop 6).map Prod.snd).sum
            then [(otherLabel, (((sortDesc Prod.snd totals).drop 6).map Prod.snd).sum)]
            else []) := by
      rw [groupSmallCategories, if_pos (by omega)]
      by_cases hpos :
          0 < (((sortDesc Prod.snd totals).drop 6).map Prod.snd).sum
      · rw [if_pos hpos, if_pos hpos, dictAssign_of_not_mem _ _ _ hkeys]
      · rw [if_neg hpos, if_neg hpos, List.append_nil]
    refine ⟨hperm, htake, ?_, ?_, heq, ?_⟩
    · intro p hp
      exact hperm.mem_iff.mp (List.take_subset 6 _ hp)
    · intro p hp q hq
      exact pairwise_take_drop 6
        (sortDesc_pairwise (Prod.snd : String × ℚ → ℚ) totals) p hp q hq
    · rw [heq, List.length_append, htake]
      by_cases hpos :
          0 < (((sortDesc Prod.snd totals).drop 6).map Prod.snd).sum
      · rw [if_pos hpos]; simp
      · rw [if_neg hpos]; simp
  · norm_num [groupSmallCategories, exampleTotals, sortDesc, insertDesc,
      dictAssign, otherLabel]
    decide

/-- Witness for the amended C7 at the 8-category example, whose categories
do not include the synthetic label. -/
theorem group_small_categories_spec_witness :
    groupSmallCategories exampleTotals =
      (sortDesc Prod.snd exampleTotals).take 6 ++
        (if 0 < (((sortDesc Prod.snd exampleTotals).drop 6).map Prod.snd).sum
          then [(otherLabel,
            (((sortDesc Prod.snd exampleTotals).drop 6).map Prod.snd).sum)]
          else []) :=
  (((group_small_categories_spec exampleTotals (by decide)).2.1
    (by decide)).2.2.2.2).1

/-! ## C8: top expenses by monthly amount -/

theorem le_fst_of_mem_enumFrom {l : List α} {n : ℕ} {p : ℕ × α}
    (h : p ∈ l.enumFrom n) : n ≤ p.1 := by
  induction l generalizing n with
  | nil => cases h
  | cons a l ih =>
    rcases List.mem_cons.mp h with rfl | h
    · exact le_refl _
    · exact le_trans (Nat.le_succ n) (ih h)

theorem enumFrom_pairwise_fst_lt (l : List α) (n : ℕ) :
    (l.enumFrom n).Pairwise (fun p q => p.1 < q.1) := by
  induction l generalizing n with
  | nil => simp
  | cons a l ih =>
    refine List.Pairwise.cons ?_ (ih (n + 1))
    intro q hq
    exact lt_of_lt_of_le (Nat.lt_succ_self n) (le_fst_of_mem_enumFrom hq)

theorem enum_pairwise_fst_lt (l : List α) :
    l.enum.Pairwise (fun p q => p.1 < q.1) := enumFrom_pairwise_fst_lt l 0

theorem insertDesc_map (g : β → α) (key : α → ℚ) (x : β) (l : List β) :
    (insertDesc (fun b => key (g b)) x l).map g
      = insertDesc key (g x) (l.map g) := by
  induction l with
  | nil => rfl
  | cons y ys ih =>
    by_cases h : key (g y) ≤ key (g x)
    · simp [insertDesc, h]
    · simp [insertDesc, h, ih]

theorem sortDesc_map (g : β → α) (key : α → ℚ) (l : List β) :
    (sortDesc (fun b => key (g b)) l).map g = sortDesc key (l.map g) := by
  induction l with
  | nil => rfl
  | cons x xs ih =>
    rw [sortDesc, List.map_cons, sortDesc, ← ih, insertDesc_map]

/-- Keys compare strictly descending, or equal with strictly ascending
original positions: the order produced by a stable descending sort. -/
def StableDescAt (key : β → ℚ) (idx : β → ℕ) (p q : β) : Prop :=
  key q < key p ∨ (key p = key q ∧ idx p < idx q)

theorem insertDesc_stable (key : β → ℚ) (idx : β → ℕ) (x : β) (l : List β)
    (hp : l.Pairwise (StableDescAt key idx))
    (hx : ∀ y ∈ l, idx x < idx y) :
    (insertDesc key x l).Pairwise (StableDescAt key idx) := by
  induction l with
  | nil => simp [insertDesc]
  | cons y ys ih =>
    rcases List.pairwise_cons.mp hp with ⟨hy, hys⟩
    by_cases h : key y ≤ key x
    · rw [insertDesc, if_pos h]
      refine List.Pairwise.cons ?_ hp
      intro z hz
      rcases List.mem_cons.mp hz with rfl | hz
      · rcases lt_or_eq_of_le h with hlt | heq
        · exact Or.inl hlt
        · exact Or.inr ⟨heq.symm, hx z (List.mem_cons_self z ys)⟩
      · rcases hy z hz with hlt | ⟨heq, _⟩
        · exact Or.inl (lt_of_lt_of_le hlt h)
        · rcases lt_or_eq_of_le (heq ▸ h) with hlt | heq2
          · exact Or.inl hlt
          · exact Or.inr ⟨heq2.symm, hx z (List.mem_cons_of_mem y hz)⟩
    · rw [insertDesc, if_neg h]
      refine List.Pairwise.cons ?_
        (ih hys (fun z hz => hx z (List.mem_cons_of_mem y hz)))
      intro z hz
      rcases (mem_insertDesc key x ys z).mp hz with rfl | hz
      · exact Or.inl (not_le.mp h)
      · exact hy z hz

theorem sortDesc_stable (key : β → ℚ) (idx : β → ℕ) (l : List β)
    (hidx : l.Pairwise (fun p q => idx p < idx q)) :
    (sortDesc key l).Pairwise (StableDescAt key idx) := by
  induction l with
  | nil => simp [sortDesc]
  | cons x xs ih =>
    rcases List.pairwise_cons.mp hidx with ⟨hx, hxs⟩
    exact insertDesc_stable key idx x (sortDesc key xs) (ih hxs)
      (fun y hy => hx y ((sortDesc_perm key xs).subset hy))

/-- The spec's concrete top-n example rows. -/
def namedExpense (name : String) (amount : ℚ) (frequency : String) : Expense :=
  ⟨0, 0, name, "c", amount, frequency, none, none⟩

/-- C8: the top-n selection returns the first n entries of the stable
descending sort of the expenses by monthly_amount: the sorted list is a
permutation of the input, is descending in monthly amount, and breaks ties
by input position (witnessed on the index-annotated list); the output is at
most n entries long, n = 0 gives the empty list, n at least the input length
gives the full sorted list, every entry exposes the name, monthly amount and
category of an input expense, and the code's own list is the n = 5 case; on
the spec's example the order is Large, Medium, Small. -/
theorem top_expenses_spec (expenses : List Expense) (n : ℕ) :
    topExpensesN expenses n
        = ((sortDesc Expense.monthly_amount expenses).take n).map mkTopEntry ∧
    topExpenses expenses = topExpensesN expenses 5 ∧
    (sortDesc Expense.monthly_amount expenses).Perm expenses ∧
    (sortDesc Expense.monthly_amount expenses).Pairwise
      (fun a b => b.monthly_amount ≤ a.monthly_amount) ∧
    (sortDesc (fun p : ℕ × Expense => p.2.monthly_amount)
        expenses.enum).map Prod.snd
      = sortDesc Expense.monthly_amount expenses ∧
    (sortDesc (fun p : ℕ × Expense => p.2.monthly_amount)
        expenses.enum).Pairwise
      (StableDescAt (fun p => p.2.monthly_amount) Prod.fst) ∧
    (topExpensesN expenses n).length ≤ n ∧
    (n = 0 → topExpensesN expenses n = []) ∧
    (expenses.length ≤ n →
      topExpensesN expenses n
        = (sortDesc Expense.monthly_amount expenses).map mkTopEntry) ∧
    (∀ t ∈ topExpensesN expenses n, ∃ e ∈ expenses, t = mkTopEntry e) ∧
    topExpensesN
        [namedExpense "Large" 10000 "monthly",
          namedExpense "Medium" 5000 "monthly",
          namedExpense "Small" 100 "monthly"] 5
      = [mkTopEntry (namedExpense "Large" 10000 "monthly"),
          mkTopEntry (namedExpense "Medium" 5000 "monthly"),
          mkTopEntry (namedExpense "Small" 100 "monthly")] := by
  have hperm := sortDesc_perm Expense.monthly_amount expenses
  refine ⟨rfl, rfl, hperm, sortDesc_pairwise _ _, ?_, ?_, ?_, ?_, ?_, ?_, ?_⟩
  · rw [sortDesc_map Prod.snd Expense.monthly_amount expenses.enum,
      List.enum_map_snd]
  · exact sortDesc_stable _ _ _ (enum_pairwise_fst_lt expenses)
  · rw [topExpensesN, List.length_map, List.length_take]
    exact min_le_left _ _
  · intro h
    rw [topExpensesN, h, List.take_zero, List.map_nil]
  · intro h
    rw [topExpensesN, List.take_of_length_le (by rw [hperm.length_eq]; exact h)]
  · intro t ht
    rcases List.mem_map.mp ht with ⟨e, he, rfl⟩
    exact ⟨e, hperm.mem_iff.mp (List.take_subset n _ he), rfl⟩
  · norm_num [topExpensesN, sortDesc, insertDesc, Expense.monthly_amount,
      namedExpense, divisorsGet, round2, roundHalfEven]

/-- Witness for C8: n = 5 exceeds the three-element example input, so the
full sorted list is returned. -/
theorem top_expenses_spec_witness :
    topExpensesN
        [namedExpense "Large" 10000 "monthly",
          namedExpense "Medium" 5000 "monthly",
          namedExpense "Small" 100 "monthly"] 5
      = (sortDesc Expense.monthly_amount
          [namedExpense "Large" 10000 "monthly",
            namedExpense "Medium" 5000 "monthly",
            namedExpense "Small" 100 "monthly"]).map mkTopEntry :=
  ((top_expenses_spec
      [namedExpense "Large" 10000 "monthly",
        namedExpense "Medium" 5000 "monthly",
        namedExpense "Small" 100 "monthly"] 5).2.2.2.2.2.2.2.2.1
    (by decide))

/-! ## C9: persisted months are never the empty list -/

/-- C9: the storage layer collapses an absent or empty months list to NULL
(add_expense and update_expense write NULL for None and for the empty list)
and the loaders map NULL back to None while decoding any stored non-empty
list unchanged, so a round-tripped months field is never the empty list and
get_monthly_amounts never reaches the len(months) division with an empty
list: it always succeeds on a round-tripped expense. -/
theorem months_storage_roundtrip (months : Option (List ℕ)) (e : Expense)
    (he : e.months = monthsFromDb (monthsToDb months)) :
    (months = none ∨ months = some [] →
      monthsFromDb (monthsToDb months) = none) ∧
    (∀ m ms, months = some (m :: ms) →
      monthsFromDb (monthsToDb months) = some (m :: ms)) ∧
    monthsFromDb (monthsToDb months) ≠ some [] ∧
    (∃ f, e.get_monthly_amounts = Except.ok f) := by
  refine ⟨?_, ?_, ?_, ?_⟩
  · rintro (rfl | rfl) <;> rfl
  · rintro m ms rfl
    rfl
  · rcases months with _ | ⟨_ | ⟨m, ms⟩⟩ <;>
      simp [monthsToDb, monthsFromDb]
  · rcases months with _ | ⟨_ | ⟨m, ms⟩⟩ <;>
      simp only [monthsToDb, monthsFromDb] at he
    · exact ⟨evenSpread e, by simp [Expense.get_monthly_amounts, he]⟩
    · exact ⟨evenSpread e, by simp [Expense.get_monthly_amounts, he]⟩
    · by_cases hf : e.frequency = "monthly"
      · exact ⟨evenSpread e, by simp [Expense.get_monthly_amounts, he, hf]⟩
      · refine ⟨fun mo =>
          if mo ∈ m :: ms then round2 (e.amount / ((m :: ms).length : ℚ))
          else if 1 ≤ mo ∧ mo ≤ 12 then 0 else 0, ?_⟩
        simp only [Expense.get_monthly_amounts, he]
        rw [if_neg hf, if_neg (by simp : ¬(m :: ms).length = 0)]

/-- Witness for C9: storing an empty months list yields a NULL cell, and the
reloaded expense evaluates its distribution without error. -/
theorem months_storage_roundtrip_witness :
    monthsFromDb (monthsToDb (some [])) = none ∧
    (∃ f, (mkExpense 5 "quarterly" none).get_monthly_amounts
      = Except.ok f) :=
  ⟨(months_storage_roundtrip (some []) (mkExpense 5 "quarterly" none)
      rfl).1 (Or.inr rfl),
    (months_storage_roundtrip (some []) (mkExpense 5 "quarterly" none)
      rfl).2.2.2⟩

/-! ## C10: the SQL totals are unrounded sums -/

theorem sum_category_totals (cats : Finset String) (l : List Expense)
    (h : ∀ e ∈ l, e.category ∈ cats) :
    (∑ c ∈ cats, get_category_totals l c)
      = (l.map Expense.monthly_amount).sum := by
  induction l with
  | nil => simp [get_category_totals]
  | cons e l ih =>
    have he := h e (List.mem_cons_self e l)
    have hl : ∀ x ∈ l, x.category ∈ cats :=
      fun x hx => h x (List.mem_cons_of_mem e hx)
    have hstep : ∀ c, get_category_totals (e :: l) c
        = (if c = e.category then e.monthly_amount else 0)
          + get_category_totals l c := by
      intro c
      rw [get_category_totals_eq, get_category_totals_eq]
      by_cases hc : e.category = c
      · rw [List.filter_cons_of_pos (by simp [hc]), List.map_cons,
          List.sum_cons, if_pos hc.symm]
      · rw [List.filter_cons_of_neg (by simp [hc]),
          if_neg (fun x => hc x.symm), zero_add]
    rw [Finset.sum_congr rfl (fun c _ => hstep c), Finset.sum_add_distrib,
      ih hl, Finset.sum_ite_eq' cats e.category (fun _ => e.monthly_amount),
      if_pos he, List.map_cons, List.sum_cons]

/-- C10: the SQL totals sum the unrounded per-row monthly equivalents
(amount over the divisor for recognized frequencies, the raw amount
otherwise) with no per-row 2-decimal rounding, while the sum of the
get_category_totals entries equals the sum of the rounded per-expense
monthly_amount values; the two disagree, as a single quarterly expense of
100 shows: 100 / 3 versus 33.33. -/
theorem sql_totals_unrounded (rows : List Expense) (incomes : List Income)
    (cats : Finset String) (hcats : ∀ e ∈ rows, e.category ∈ cats) :
    get_total_monthly_expenses rows
        = (rows.map (fun e => sqlRowMonthly e.frequency e.amount)).sum ∧
    get_total_income incomes
        = (incomes.map (fun i => sqlRowMonthly i.frequency i.amount)).sum ∧
    (∀ e : Expense,
      (e.frequency ∈ frequencyEnum →
        sqlRowMonthly e.frequency e.amount
          = e.amount / divisorsGet e.frequency) ∧
      (e.frequency ∉ frequencyEnum →
        sqlRowMonthly e.frequency e.amount = e.amount)) ∧
    (∑ c ∈ cats, get_category_totals rows c)
        = (rows.map Expense.monthly_amount).sum ∧
    get_total_monthly_expenses [mkExpense 100 "quarterly" none]
        = 100 / 3 ∧
    ([mkExpense 100 "quarterly" none].map Expense.monthly_amount).sum
        = 33.33 ∧
    (100 : ℚ) / 3 ≠ 33.33 := by
  refine ⟨rfl, rfl, ?_, sum_category_totals cats rows hcats, ?_, ?_, ?_⟩
  · intro e
    constructor
    · intro hf
      simp only [frequencyEnum, List.mem_cons, List.not_mem_nil, or_false]
        at hf
      rcases hf with h | h | h | h <;>
        simp [sqlRowMonthly, divisorsGet, h]
    · intro hf
      have hd := divisorsGet_default e.frequency hf
      simp only [frequencyEnum, List.mem_cons, List.not_mem_nil, not_or]
        at hf
      obtain ⟨h1, h2, h3, h4⟩ := hf
      simp [sqlRowMonthly, h1, h2, h3, h4]
  · simp [get_total_monthly_expenses, sqlRowMonthly, mkExpense]
  · show Expense.monthly_amount (mkExpense 100 "quarterly" none) + 0 = 33.33
    show round2 ((100 : ℚ) / divisorsGet "quarterly") + 0 = 33.33
    rw [divisorsGet_quarterly]
    norm_num [round2, roundHalfEven]
  · norm_num

/-- Witness for C10 on a single quarterly expense in one category. -/
theorem sql_totals_unrounded_witness :
    (∑ c ∈ ({"c"} : Finset String),
        get_category_totals [mkExpense 100 "quarterly" none] c)
      = ([mkExpense 100 "quarterly" none].map Expense.monthly_amount).sum :=
  (sql_totals_unrounded [mkExpense 100 "quarterly" none] []
    ({"c"} : Finset String) (by decide)).2.2.2.1

/-! ## C5: identity of the monthly divisor -/

/-- C5 counterexample: at amount 0.001 with frequency monthly the
monthly_amount is 0, not 0.001, so the 2-decimal rounding does change some
nonnegative amounts. -/
theorem monthly_identity_fails_at_three_decimals :
    (mkExpense (0.001 : ℚ) "monthly" none).monthly_amount ≠ (0.001 : ℚ) := by
  show round2 ((0.001 : ℚ) / divisorsGet "monthly") ≠ (0.001 : ℚ)
  rw [divisorsGet_monthly]
  norm_num [round2, roundHalfEven]

/-- C5 amended: for every amount with at most two decimal places (an amount
of the form k / 100 with k a natural number, hence nonnegative), the monthly
amount of an Income or Expense with frequency monthly is the amount itself:
the divisor is 1 and the 2-decimal rounding fixes such amounts. -/
theorem monthly_identity_on_two_decimals (e : Expense) (i : Income) (k : ℕ)
    (he : e.amount = (k : ℚ) / 100) (hef : e.frequency = "monthly")
    (hi : i.amount = (k : ℚ) / 100) (hif : i.frequency = "monthly") :
    e.monthly_amount = e.amount ∧ i.monthly_amount = i.amount := by
  constructor
  · rw [Expense.monthly_amount, hef, divisorsGet_monthly, he]
    rw [div_one]
    exact round2_nat_div_100 k
  · rw [Income.monthly_amount, hif, divisorsGet_monthly, hi]
    rw [div_one]
    exact round2_nat_div_100 k

/-- Witness for the amended C5 at amount 0.07. -/
theorem monthly_identity_on_two_decimals_witness :
    (mkExpense ((7 : ℚ) / 100) "monthly" none).monthly_amount
        = (mkExpense ((7 : ℚ) / 100) "monthly" none).amount ∧
    (mkIncome ((7 : ℚ) / 100) "monthly").monthly_amount
        = (mkIncome ((7 : ℚ) / 100) "monthly").amount :=
  monthly_identity_on_two_decimals
    (mkExpense ((7 : ℚ) / 100) "monthly" none)
    (mkIncome ((7 : ℚ) / 100) "monthly") 7 (by simp [mkExpense]) rfl
    (by simp [mkIncome]) rfl

end Budget
